import Mathlib

/-!
Verification of the allen-interval-relations crate.

The repository classifies pairs of intervals over an ordered domain into
Allen's thirteen interval relations.  The development below embeds the
relevant Rust sources shallowly in Lean:

* `Relation` and `Relation.fromAtomics` embed `src/relation.rs`
  (the enum and the `From<AtomicRelations> for Relation` decision table);
* `Relation.asConverse` embeds `Relation::as_converse`;
* `Relation.cmp` embeds the `Ord` impl (`(*self as u8).cmp(&(*other as u8))`);
* `AtomicRelations` and `AtomicRelations.fromRanges` embed `src/atomics.rs`;
* `cmpEE` and `cmpEB` embed the `PartialOrd` impls of `src/end_bound.rs`;
* `cmpBB` and `cmpBE` are modelled from the spec (see their doc comments:
  the StartBound comparator source file is not part of the sources);
* `Rng`, `Rng.startB`, `Rng.endB` embed the `RangeBounds` impls of
  `src/range_bounds.rs` for the six supported Rust range shapes;
* `IntervalValidator.validateInterval` embeds `src/validator.rs`;
* `nonEmptyTryFrom` embeds `TryFrom<Interval<T>> for NonEmpty<Interval<T>>`
  of `src/non_empty.rs`;
* `arFromRangeFromFull` and `arFromFullFull` embed the corresponding
  `FromRanges` impls of `src/atomic_relations.rs`;
* `Bound` and the `Bb.fromBounds`/`Be.fromBounds`/`Eb.fromBounds`/
  `Ee.fromBounds` functions embed `src/atomic/{bb,be,eb,ee}.rs`.

The scalar endpoint type is embedded as `Int`: every comparison in the
sources goes through `Ord`/`PartialOrd` of the scalar type, which for the
machine integer instantiations is the integer order (total, so the
`partial_cmp` calls never return `None`).
-/

namespace Allen

/-- Comparison on the embedded scalar domain: the result of Rust's
`Ord::cmp` / `PartialOrd::partial_cmp` for integer scalars
(total, `partial_cmp` always returns `Some` of this value). -/
def cmpInt (a b : Int) : Ordering :=
  if a < b then .lt else if b < a then .gt else .eq

theorem cmpInt_eq_lt {a b : Int} : cmpInt a b = .lt ↔ a < b := by
  unfold cmpInt; split_ifs <;> simp <;> omega

theorem cmpInt_eq_gt {a b : Int} : cmpInt a b = .gt ↔ b < a := by
  unfold cmpInt; split_ifs <;> simp <;> omega

theorem cmpInt_eq_eq {a b : Int} : cmpInt a b = .eq ↔ a = b := by
  unfold cmpInt; split_ifs <;> simp <;> omega

theorem cmpInt_self (a : Int) : cmpInt a a = .eq := cmpInt_eq_eq.mpr rfl

theorem cmpInt_swap (a b : Int) : cmpInt b a = (cmpInt a b).swap := by
  unfold cmpInt
  split_ifs <;> first | rfl | omega

/-- The thirteen Allen relations, in the declaration order of
`enum Relation` in `src/relation.rs` (which fixes the `repr(u8)`
discriminants used by its `Ord` impl). -/
inductive Relation where
  | precedes
  | meets
  | overlaps
  | isFinishedBy
  | contains
  | starts
  | equals
  | isStartedBy
  | isContainedBy
  | finishes
  | isOverlappedBy
  | isMetBy
  | isPrecededBy
deriving DecidableEq, Repr

instance : Fintype Relation where
  elems := ⟨(([.precedes, .meets, .overlaps, .isFinishedBy, .contains, .starts,
               .equals, .isStartedBy, .isContainedBy, .finishes, .isOverlappedBy,
               .isMetBy, .isPrecededBy] : List Relation) : Multiset Relation),
            by decide⟩
  complete := fun x => by cases x <;> decide

/-- The four atomic endpoint comparisons of `src/atomics.rs`:
bb = order(start s, start t), be = order(start s, end t),
eb = order(end s, start t), ee = order(end s, end t). -/
structure AtomicRelations where
  bb : Ordering
  be : Ordering
  eb : Ordering
  ee : Ordering
deriving DecidableEq, Repr

instance : Fintype Ordering where
  elems := ⟨(([.lt, .eq, .gt] : List Ordering) : Multiset Ordering), by decide⟩
  complete := fun x => by cases x <;> decide

/-- The relation classifier: the `match` of
`impl From<AtomicRelations> for Relation` in `src/relation.rs`,
with the arms in source order (first match wins, as in Rust). -/
def Relation.fromAtomics (a : AtomicRelations) : Relation :=
  match a.bb, a.be, a.eb, a.ee with
  | _, _, .lt, _ => .precedes
  | _, .gt, _, _ => .isPrecededBy
  | _, _, .eq, _ => .meets
  | _, .eq, _, _ => .isMetBy
  | .gt, _, _, .eq => .finishes
  | .lt, _, _, .eq => .isFinishedBy
  | .eq, _, _, .lt => .starts
  | .eq, _, _, .gt => .isStartedBy
  | .lt, _, _, .gt => .contains
  | .gt, _, _, .lt => .isContainedBy
  | .eq, _, _, .eq => .equals
  | .lt, _, .gt, .lt => .overlaps
  | .gt, .lt, _, .gt => .isOverlappedBy

/-- The converse operation, from `Relation::as_converse` in
`src/relation.rs`. -/
def Relation.asConverse : Relation → Relation
  | .precedes => .isPrecededBy
  | .meets => .isMetBy
  | .overlaps => .isOverlappedBy
  | .isFinishedBy => .finishes
  | .contains => .isContainedBy
  | .starts => .isStartedBy
  | .equals => .equals
  | .isStartedBy => .starts
  | .isContainedBy => .contains
  | .finishes => .isFinishedBy
  | .isOverlappedBy => .overlaps
  | .isMetBy => .meets
  | .isPrecededBy => .precedes

/-- The `repr(u8)` discriminant of each `Relation` variant, fixed by the
declaration order in `src/relation.rs`. -/
def Relation.discriminant : Relation → Nat
  | .precedes => 0
  | .meets => 1
  | .overlaps => 2
  | .isFinishedBy => 3
  | .contains => 4
  | .starts => 5
  | .equals => 6
  | .isStartedBy => 7
  | .isContainedBy => 8
  | .finishes => 9
  | .isOverlappedBy => 10
  | .isMetBy => 11
  | .isPrecededBy => 12

/-- The `Ord` impl of `Relation` in `src/relation.rs`:
`(*self as u8).cmp(&(*other as u8))`. -/
def Relation.cmp (r1 r2 : Relation) : Ordering :=
  cmpInt r1.discriminant r2.discriminant

/-- The thirteen conditions of the decision table of spec section 4.3,
as raw (unguarded) predicates on the atomic tuple, in priority order
`0 = Precedes` through `12 = IsOverlappedBy`. -/
def condB (a : AtomicRelations) (i : Fin 13) : Bool :=
  ([a.eb == .lt,
    a.be == .gt,
    a.eb == .eq,
    a.be == .eq,
    a.ee == .eq && a.bb == .gt,
    a.ee == .eq && a.bb == .lt,
    a.bb == .eq && a.ee == .lt,
    a.bb == .eq && a.ee == .gt,
    a.bb == .lt && a.ee == .gt,
    a.bb == .gt && a.ee == .lt,
    a.bb == .eq && a.ee == .eq,
    a.bb == .lt && a.eb == .gt && a.ee == .lt,
    a.bb == .gt && a.be == .lt && a.ee == .gt] : List Bool).getD i.val false

/-- The relation assigned by row `i` of the decision table of spec
section 4.3. -/
def relationOfCond (i : Fin 13) : Relation :=
  ([.precedes, .isPrecededBy, .meets, .isMetBy, .finishes, .isFinishedBy,
    .starts, .isStartedBy, .contains, .isContainedBy, .equals, .overlaps,
    .isOverlappedBy] : List Relation).getD i.val .equals

/-- The spec's priority-ordered decision procedure, written exactly as the
table of section 4.3 reads: the first rule whose condition matches fires,
and a tuple matching no rule yields `none`. -/
def specFirstMatch (a : AtomicRelations) : Option Relation :=
  if a.eb == .lt then some .precedes
  else if a.be == .gt then some .isPrecededBy
  else if a.eb == .eq then some .meets
  else if a.be == .eq then some .isMetBy
  else if a.ee == .eq && a.bb == .gt then some .finishes
  else if a.ee == .eq && a.bb == .lt then some .isFinishedBy
  else if a.bb == .eq && a.ee == .lt then some .starts
  else if a.bb == .eq && a.ee == .gt then some .isStartedBy
  else if a.bb == .lt && a.ee == .gt then some .contains
  else if a.bb == .gt && a.ee == .lt then some .isContainedBy
  else if a.bb == .eq && a.ee == .eq then some .equals
  else if a.bb == .lt && a.eb == .gt && a.ee == .lt then some .overlaps
  else if a.bb == .gt && a.be == .lt && a.ee == .gt then some .isOverlappedBy
  else none

/-- The atomic tuple of the swapped interval pair: swapping the two
arguments turns bb into its own reversal, interchanges be and eb
(each reversed), and reverses ee. -/
def AtomicRelations.transposed (a : AtomicRelations) : AtomicRelations :=
  ⟨a.bb.swap, a.eb.swap, a.be.swap, a.ee.swap⟩

/-- Constraints satisfied by every atomic tuple computed from two
intervals whose materialized endpoints are strictly ordered
(start s < end s and start t < end t); see
`consistent_tupleOfEndpoints`. -/
def consistent (a : AtomicRelations) : Prop :=
  (a.eb = .lt → a.bb = .lt ∧ a.be = .lt ∧ a.ee = .lt) ∧
  (a.be = .gt → a.bb = .gt ∧ a.eb = .gt ∧ a.ee = .gt) ∧
  (a.eb = .eq → a.bb = .lt ∧ a.be = .lt ∧ a.ee = .lt) ∧
  (a.be = .eq → a.bb = .gt ∧ a.eb = .gt ∧ a.ee = .gt) ∧
  (a.bb = .eq → a.be = .lt ∧ a.eb = .gt) ∧
  (a.ee = .eq → a.be = .lt ∧ a.eb = .gt) ∧
  (a.bb = .lt → a.ee = .gt → a.be = .lt ∧ a.eb = .gt)

instance (a : AtomicRelations) : Decidable (consistent a) := by
  unfold consistent; infer_instance

/-- The atomic tuple of a pair of intervals given by their materialized
endpoints, as computed by the four endpoint comparators. -/
def tupleOfEndpoints (bs es bt et : Int) : AtomicRelations :=
  ⟨cmpInt bs bt, cmpInt bs et, cmpInt es bt, cmpInt es et⟩

theorem consistent_tupleOfEndpoints {bs es bt et : Int}
    (hs : bs < es) (ht : bt < et) :
    consistent (tupleOfEndpoints bs es bt et) := by
  unfold consistent tupleOfEndpoints
  simp only [cmpInt_eq_lt, cmpInt_eq_eq, cmpInt_eq_gt]
  omega

theorem tupleOfEndpoints_swap (bs es bt et : Int) :
    tupleOfEndpoints bt et bs es =
      (tupleOfEndpoints bs es bt et).transposed := by
  unfold tupleOfEndpoints AtomicRelations.transposed
  rw [cmpInt_swap bs bt, cmpInt_swap es bt, cmpInt_swap bs et,
    cmpInt_swap es et]

instance (p : Fin 13 → Prop) [DecidablePred p] : Decidable (∃! i, p i) := by
  unfold ExistsUnique; infer_instance

set_option maxRecDepth 4000 in
theorem exactlyOne_cond_of_consistent :
    ∀ bb be eb ee : Ordering, consistent ⟨bb, be, eb, ee⟩ →
      ∃! i : Fin 13, condB ⟨bb, be, eb, ee⟩ i = true := by decide

theorem fromAtomics_eq_of_cond :
    ∀ bb be eb ee : Ordering, consistent ⟨bb, be, eb, ee⟩ →
      ∀ i : Fin 13, condB ⟨bb, be, eb, ee⟩ i = true →
        Relation.fromAtomics ⟨bb, be, eb, ee⟩ = relationOfCond i := by decide

theorem fromAtomics_transposed_of_consistent :
    ∀ bb be eb ee : Ordering, consistent ⟨bb, be, eb, ee⟩ →
      Relation.fromAtomics (AtomicRelations.transposed ⟨bb, be, eb, ee⟩) =
        (Relation.fromAtomics ⟨bb, be, eb, ee⟩).asConverse := by decide

/-!
The range-based classification pipeline of `src/atomics.rs` together with
`src/range_bounds.rs` (bound extraction) and `src/end_bound.rs`
(endpoint comparators).  A bound is `some v` (Rust `Bound::Bounded(v)`)
or `none` (Rust `Bound::Unbounded`).  The endpoint comparators resolve an
unbounded start as the scalar type's `min_value()` sentinel and an
unbounded end as its `max_value()` sentinel, exactly as the `PartialOrd`
impls of `EndBound` in `src/end_bound.rs` do; the two comparator kinds
whose left side is a start bound are modelled, see their doc comments.
-/

/-- The end-vs-end comparator: `PartialOrd<EndBound> for EndBound` of
`src/end_bound.rs` (lines 98 to 114) with scalar type embedded as `Int`
and `maxv` standing for the type's `max_value()`. -/
def cmpEE (maxv : Int) : Option Int → Option Int → Ordering
  | some s, some t => cmpInt s t
  | some s, none => cmpInt s maxv
  | none, some t => cmpInt maxv t
  | none, none => .eq

/-- The end-vs-start comparator: `PartialOrd<StartBound> for EndBound` of
`src/end_bound.rs` (lines 116 to 132), with `minv`/`maxv` standing for
`min_value()`/`max_value()`. -/
def cmpEB (minv maxv : Int) : Option Int → Option Int → Ordering
  | some s, some t => cmpInt s t
  | some s, none => cmpInt s minv
  | none, some t => cmpInt maxv t
  | none, none => .gt

/-- Modelled from the spec: the StartBound source file (defining
`PartialOrd<StartBound> for StartBound`, the start-vs-start comparator
used by `AtomicRelations::from_ranges` in `src/atomics.rs`) is not among
the sources; following spec section 4.1 (an unbounded start acts as the
lower extreme) and mirroring the `EndBound` impls of `src/end_bound.rs`,
an unbounded start bound resolves to the `min_value()` sentinel `minv`. -/
def cmpBB (minv : Int) : Option Int → Option Int → Ordering
  | some s, some t => cmpInt s t
  | some s, none => cmpInt s minv
  | none, some t => cmpInt minv t
  | none, none => .eq

/-- Modelled from the spec: the StartBound source file (defining
`PartialOrd<EndBound> for StartBound`, the start-vs-end comparator used
by `AtomicRelations::from_ranges` and by its two `assert!(.. <= ..)`
precondition checks) is not among the sources; following spec section 4.1
(a start bound compared with an end bound with either side unbounded is
always strictly less) and mirroring `PartialOrd<StartBound> for EndBound`
of `src/end_bound.rs`, an unbounded start resolves to `minv`, an
unbounded end to `maxv`, and two unbounded sides compare as `Less`. -/
def cmpBE (minv maxv : Int) : Option Int → Option Int → Ordering
  | some s, some t => cmpInt s t
  | some s, none => cmpInt s maxv
  | none, some t => cmpInt minv t
  | none, none => .lt

/-- The six Rust range shapes accepted by the `RangeBounds` impls of
`src/range_bounds.rs`: `..`, `..e` (discrete), `..=e` (non-discrete),
`a..`, `a..e` (discrete), `a..=e` (non-discrete). -/
inductive Rng where
  | full
  | to (e : Int)
  | toIncl (e : Int)
  | fromB (a : Int)
  | range (a e : Int)
  | rangeIncl (a e : Int)
deriving DecidableEq, Repr

/-- The start bound of a range, per the `start_bound` methods of
`src/range_bounds.rs`. -/
def Rng.startB : Rng → Option Int
  | .full => none
  | .to _ => none
  | .toIncl _ => none
  | .fromB a => some a
  | .range a _ => some a
  | .rangeIncl a _ => some a

/-- The end bound of a range, per the `end_bound` methods of
`src/range_bounds.rs`. -/
def Rng.endB : Rng → Option Int
  | .full => none
  | .to e => some e
  | .toIncl e => some e
  | .fromB _ => none
  | .range _ e => some e
  | .rangeIncl _ e => some e

/-- Whether the shape has a `RangeBounds<T, Discrete>` impl in
`src/range_bounds.rs` (exclusive-end and unbounded shapes). -/
def Rng.discreteOk : Rng → Bool
  | .full => true
  | .to _ => true
  | .toIncl _ => false
  | .fromB _ => true
  | .range _ _ => true
  | .rangeIncl _ _ => false

/-- Whether the shape has a `RangeBounds<T, NonDiscrete>` impl in
`src/range_bounds.rs` (inclusive-end and unbounded shapes). -/
def Rng.nonDiscreteOk : Rng → Bool
  | .full => true
  | .to _ => false
  | .toIncl _ => true
  | .fromB _ => true
  | .range _ _ => false
  | .rangeIncl _ _ => true

/-- The error type of `src/validator.rs` (enum `IntervalError`). -/
inductive IntervalError where
  | emptyInterval
  | ambiguousOrder
deriving DecidableEq, Repr

/-- The `ValidateInterval` impls of `IntervalValidator` in
`src/validator.rs`, one arm per range shape (with `minv`/`maxv` standing
for `U::min_value()`/`U::max_value()`).  Rust's `a >= b` on a totally
ordered scalar is embedded as `b ≤ a`. -/
def validateInterval (minv maxv : Int) : Rng → Except IntervalError Unit
  | .full => .ok ()
  | .to e => if e ≤ minv then .error .emptyInterval else .ok ()
  | .toIncl e => if e ≤ minv then .error .emptyInterval else .ok ()
  | .fromB a => if maxv ≤ a then .error .emptyInterval else .ok ()
  | .range a e =>
      if e ≤ a ∨ maxv ≤ a ∨ e ≤ minv then .error .emptyInterval else .ok ()
  | .rangeIncl a e =>
      if e ≤ a ∨ maxv ≤ a ∨ e ≤ minv then .error .emptyInterval else .ok ()

/-- The `TryFrom<Interval<T>> for NonEmpty<Interval<T>>` impl of
`src/non_empty.rs`: an interval converts iff its start compares strictly
below its end (the `None` arm of `partial_cmp`, mapped to
`AmbiguousOrder`, is unreachable over a totally ordered scalar). -/
def nonEmptyTryFrom (start e : Int) : Except IntervalError (Int × Int) :=
  match cmpInt start e with
  | .lt => .ok (start, e)
  | .eq => .error .emptyInterval
  | .gt => .error .emptyInterval

/-- Outcome of a Rust function that may panic: the value it returns, or
the fact that an `assert!` fired. -/
inductive PanicOr (α : Type) where
  | panicked
  | ok (val : α)
deriving DecidableEq, Repr

/-- `AtomicRelations::from_ranges` of `src/atomics.rs`: extracts the four
bounds, `assert!`s that each range's start bound is less than or equal to
its own end bound (panicking otherwise with the message that empty ranges
are unsupported), then computes the four comparisons.  Over a totally
ordered scalar the `partial_cmp` calls behind the `?` operators always
succeed, so the only non-`ok` outcome is a panic. -/
def AtomicRelations.fromRanges (minv maxv : Int) (s t : Rng) :
    PanicOr AtomicRelations :=
  let sb := s.startB
  let se := s.endB
  let tb := t.startB
  let te := t.endB
  if cmpBE minv maxv sb se = .gt then .panicked
  else if cmpBE minv maxv tb te = .gt then .panicked
  else .ok ⟨cmpBB minv sb tb, cmpBE minv maxv sb te,
            cmpEB minv maxv se tb, cmpEE maxv se te⟩

/-- `Relation::from_ranges` of `src/relation.rs`:
`AtomicRelations::from_ranges(s, t).map(Relation::from)`. -/
def Relation.fromRanges (minv maxv : Int) (s t : Rng) : PanicOr Relation :=
  match AtomicRelations.fromRanges minv maxv s t with
  | .panicked => .panicked
  | .ok a => .ok (Relation.fromAtomics a)

/-- The materialized start endpoint of a range (unbounded resolves to the
lower sentinel). -/
def matS (minv : Int) (r : Rng) : Int := r.startB.getD minv

/-- The materialized end endpoint of a range (unbounded resolves to the
upper sentinel). -/
def matE (maxv : Int) (r : Rng) : Int := r.endB.getD maxv

theorem cmpBB_mat (minv : Int) (x y : Option Int) :
    cmpBB minv x y = cmpInt (x.getD minv) (y.getD minv) := by
  cases x <;> cases y <;> simp [cmpBB, Option.getD, cmpInt_self]

theorem cmpEE_mat (maxv : Int) (x y : Option Int) :
    cmpEE maxv x y = cmpInt (x.getD maxv) (y.getD maxv) := by
  cases x <;> cases y <;> simp [cmpEE, Option.getD, cmpInt_self]

theorem cmpBE_mat {minv maxv : Int} (h : minv < maxv) (x y : Option Int) :
    cmpBE minv maxv x y = cmpInt (x.getD minv) (y.getD maxv) := by
  cases x <;> cases y <;>
    simp [cmpBE, Option.getD, (cmpInt_eq_lt (a := minv) (b := maxv)).mpr h]

theorem cmpEB_mat {minv maxv : Int} (h : minv < maxv) (x y : Option Int) :
    cmpEB minv maxv x y = cmpInt (x.getD maxv) (y.getD minv) := by
  cases x <;> cases y <;>
    simp [cmpEB, Option.getD, (cmpInt_eq_gt (a := maxv) (b := minv)).mpr h]

/-- A range accepted by the validator has strictly ordered materialized
endpoints (given non-degenerate sentinels). -/
theorem validate_strict {minv maxv : Int} (h : minv < maxv) (r : Rng)
    (hv : validateInterval minv maxv r = .ok ()) :
    matS minv r < matE maxv r := by
  cases r <;>
    simp only [validateInterval, matS, matE, Rng.startB, Rng.endB,
      Option.getD] at * <;>
    first
      | omega
      | (split at hv <;> simp_all)

/-- On validated inputs the asserts of `AtomicRelations::from_ranges`
pass and the result is the tuple of materialized-endpoint comparisons. -/
theorem fromRanges_ok {minv maxv : Int} (h : minv < maxv) (s t : Rng)
    (hs : validateInterval minv maxv s = .ok ())
    (ht : validateInterval minv maxv t = .ok ()) :
    AtomicRelations.fromRanges minv maxv s t =
      .ok (tupleOfEndpoints (matS minv s) (matE maxv s)
            (matS minv t) (matE maxv t)) := by
  have hs' := validate_strict h s hs
  have ht' := validate_strict h t ht
  simp only [AtomicRelations.fromRanges]
  rw [cmpBE_mat h s.startB s.endB, cmpBE_mat h t.startB t.endB]
  have h1 : cmpInt (matS minv s) (matE maxv s) = .lt := cmpInt_eq_lt.mpr hs'
  have h2 : cmpInt (matS minv t) (matE maxv t) = .lt := cmpInt_eq_lt.mpr ht'
  simp only [matS, matE] at h1 h2
  rw [h1, h2]
  simp only [reduceCtorEq, if_false]
  rw [cmpBB_mat, cmpBE_mat h, cmpEB_mat h, cmpEE_mat]
  rfl

/-!
The comparator-role variant of the endpoint comparators, from
`src/atomic/{bb,be,eb,ee}.rs`: these work on plain `Bound` values
(`src/bound.rs`) and resolve unbounded sides by comparator kind alone,
without materializing sentinel values.
-/

/-- The `Bound` enum of `src/bound.rs`. -/
inductive Bound (α : Type) where
  | bounded (v : α)
  | unbounded
deriving DecidableEq, Repr

/-- `Bb::from_bounds` of `src/atomic/bb.rs`: start-vs-start comparator. -/
def Bb.fromBounds : Bound Int → Bound Int → Ordering
  | .bounded s, .bounded t => cmpInt s t
  | .bounded _, .unbounded => .gt
  | .unbounded, .bounded _ => .lt
  | .unbounded, .unbounded => .eq

/-- `Be::from_bounds` of `src/atomic/be.rs`: start-vs-end comparator. -/
def Be.fromBounds : Bound Int → Bound Int → Ordering
  | .bounded s, .bounded t => cmpInt s t
  | .bounded _, .unbounded => .lt
  | .unbounded, .bounded _ => .lt
  | .unbounded, .unbounded => .lt

/-- `Eb::from_bounds` of `src/atomic/eb.rs`: end-vs-start comparator. -/
def Eb.fromBounds : Bound Int → Bound Int → Ordering
  | .bounded s, .bounded t => cmpInt s t
  | .bounded _, .unbounded => .gt
  | .unbounded, .bounded _ => .gt
  | .unbounded, .unbounded => .gt

/-- `Ee::from_bounds` of `src/atomic/ee.rs`: end-vs-end comparator. -/
def Ee.fromBounds : Bound Int → Bound Int → Ordering
  | .bounded s, .bounded t => cmpInt s t
  | .bounded _, .unbounded => .lt
  | .unbounded, .bounded _ => .gt
  | .unbounded, .unbounded => .eq

/-- `Bb::try_from_bounds` of `src/atomic/bb.rs` (the `partial_cmp` of two
bounded integer values always succeeds, so `AmbiguousOrder` is
unreachable over this scalar). -/
def Bb.tryFromBounds (s t : Bound Int) : Except IntervalError Ordering :=
  .ok (Bb.fromBounds s t)

/-- `Be::try_from_bounds` of `src/atomic/be.rs`. -/
def Be.tryFromBounds (s t : Bound Int) : Except IntervalError Ordering :=
  .ok (Be.fromBounds s t)

/-- `Eb::try_from_bounds` of `src/atomic/eb.rs`. -/
def Eb.tryFromBounds (s t : Bound Int) : Except IntervalError Ordering :=
  .ok (Eb.fromBounds s t)

/-- `Ee::try_from_bounds` of `src/atomic/ee.rs`. -/
def Ee.tryFromBounds (s t : Bound Int) : Except IntervalError Ordering :=
  .ok (Ee.fromBounds s t)

/-!
The sentinel-materializing variant of the atomic-relations constructors,
from `src/atomic_relations.rs` (the `FromRanges` impls that substitute
`T::min_value()` and `T::max_value()` for the missing sides).
-/

/-- `FromRanges<RangeFrom<T>, RangeFull> for AtomicRelations` of
`src/atomic_relations.rs` (lines 309 to 322): classifies `a..` against
`..` by substituting the sentinels for every unbounded side. -/
def arFromRangeFromFull (minv maxv a : Int) : Option AtomicRelations :=
  some ⟨cmpInt a minv, cmpInt a maxv, cmpInt maxv minv, cmpInt maxv maxv⟩

/-- `FromRanges<RangeFull, RangeFull> for AtomicRelations` of
`src/atomic_relations.rs` (lines 86 to 98): the hardcoded tuple for two
full ranges. -/
def arFromFullFull : Option AtomicRelations :=
  some ⟨.eq, .lt, .gt, .eq⟩

/-- Any tuple whose eb component is Less classifies as Precedes (the
first arm of the decision table fires unconditionally). -/
theorem fromAtomics_precedes_of_eb_lt :
    ∀ bb be ee : Ordering,
      Relation.fromAtomics ⟨bb, be, .lt, ee⟩ = .precedes := by decide

/-- Any tuple with eb Equal and be Less classifies as Meets (the first
two arms cannot fire, the third does). -/
theorem fromAtomics_meets_of_eb_eq :
    ∀ bb ee : Ordering,
      Relation.fromAtomics ⟨bb, .lt, .eq, ee⟩ = .meets := by decide

/-- The fixed evaluation order of the spec's section 4.4 total order on
relations. -/
def specOrderList : List Relation :=
  [.precedes, .meets, .overlaps, .isFinishedBy, .contains, .starts,
   .equals, .isStartedBy, .isContainedBy, .finishes, .isOverlappedBy,
   .isMetBy, .isPrecededBy]

/-!
The claims.
-/

/-- C1: the relation classifier maps every atomic tuple (bb, be, eb, ee)
to the relation picked by the first matching rule of the spec's
priority-ordered decision table (Precedes on eb = Less, IsPrecededBy on
be = Greater, Meets on eb = Equal, IsMetBy on be = Equal, Finishes,
IsFinishedBy, Starts, IsStartedBy, Contains, IsContainedBy, Equals,
Overlaps, IsOverlappedBy, in that order); in particular every tuple
matches some rule. -/
theorem c1_classifier_matches_spec_table :
    ∀ bb be eb ee : Ordering,
      specFirstMatch ⟨bb, be, eb, ee⟩ =
        some (Relation.fromAtomics ⟨bb, be, eb, ee⟩) := by decide

/-- C2: for every pair of validated (non-empty) ranges over the integer
domain with sentinels minv < maxv, classification computes an atomic
tuple for which exactly one of the thirteen decision-table conditions is
true, returns exactly the relation of that condition, and no such tuple
falls outside the table. -/
theorem c2_exactly_one_condition (minv maxv : Int) (s t : Rng)
    (h : minv < maxv)
    (hs : validateInterval minv maxv s = .ok ())
    (ht : validateInterval minv maxv t = .ok ()) :
    ∃ a, AtomicRelations.fromRanges minv maxv s t = .ok a ∧
      (∃! i : Fin 13, condB a i = true) ∧
      Relation.fromRanges minv maxv s t = .ok (Relation.fromAtomics a) ∧
      (∀ i : Fin 13, condB a i = true →
        Relation.fromAtomics a = relationOfCond i) := by
  have hc := consistent_tupleOfEndpoints
    (validate_strict h s hs) (validate_strict h t ht)
  refine ⟨_, fromRanges_ok h s t hs ht, ?_, ?_, ?_⟩
  · exact exactlyOne_cond_of_consistent _ _ _ _ hc
  · unfold Relation.fromRanges
    rw [fromRanges_ok h s t hs ht]
  · exact fun i hi => fromAtomics_eq_of_cond _ _ _ _ hc i hi

/-- Witness for C2 at concrete inputs: i8-style sentinels and the ranges
1..4 and 5..8. -/
theorem c2_exactly_one_condition_witness :
    (-128 : Int) < 127 ∧
    validateInterval (-128) 127 (.range 1 4) = .ok () ∧
    validateInterval (-128) 127 (.range 5 8) = .ok () ∧
    (∃ a, AtomicRelations.fromRanges (-128) 127 (.range 1 4) (.range 5 8) =
        .ok a ∧
      (∃! i : Fin 13, condB a i = true) ∧
      Relation.fromRanges (-128) 127 (.range 1 4) (.range 5 8) =
        .ok (Relation.fromAtomics a) ∧
      (∀ i : Fin 13, condB a i = true →
        Relation.fromAtomics a = relationOfCond i)) :=
  ⟨by decide, rfl, rfl,
   c2_exactly_one_condition (-128) 127 (.range 1 4) (.range 5 8)
     (by decide) rfl rfl⟩

/-- C3: swap consistency. For every pair of validated (non-empty) ranges
(s, t), classification succeeds and classifying the swapped pair returns
the converse of classifying the original pair. -/
theorem c3_swap_consistency (minv maxv : Int) (s t : Rng)
    (h : minv < maxv)
    (hs : validateInterval minv maxv s = .ok ())
    (ht : validateInterval minv maxv t = .ok ()) :
    ∃ r, Relation.fromRanges minv maxv s t = .ok r ∧
      Relation.fromRanges minv maxv t s = .ok r.asConverse := by
  have hc := consistent_tupleOfEndpoints
    (validate_strict h s hs) (validate_strict h t ht)
  refine ⟨Relation.fromAtomics (tupleOfEndpoints (matS minv s) (matE maxv s)
    (matS minv t) (matE maxv t)), ?_, ?_⟩
  · unfold Relation.fromRanges
    rw [fromRanges_ok h s t hs ht]
  · unfold Relation.fromRanges
    rw [fromRanges_ok h t s ht hs, tupleOfEndpoints_swap]
    exact congrArg PanicOr.ok
      (fromAtomics_transposed_of_consistent _ _ _ _ hc)

/-- Witness for C3 at concrete inputs: i8-style sentinels, s = 3..6 and
t = 4.. (an overlapping pair). -/
theorem c3_swap_consistency_witness :
    (-128 : Int) < 127 ∧
    validateInterval (-128) 127 (.range 3 6) = .ok () ∧
    validateInterval (-128) 127 (.fromB 4) = .ok () ∧
    (∃ r, Relation.fromRanges (-128) 127 (.range 3 6) (.fromB 4) = .ok r ∧
      Relation.fromRanges (-128) 127 (.fromB 4) (.range 3 6) =
        .ok r.asConverse) :=
  ⟨by decide, rfl, rfl,
   c3_swap_consistency (-128) 127 (.range 3 6) (.fromB 4)
     (by decide) rfl rfl⟩

/-- C4: the comparator-role endpoint comparators resolve every pair with
an unbounded side by comparator kind alone, regardless of the bounded
value (the functions take no discreteness parameter at all): BB yields
Greater, Less, Equal; BE always Less; EB always Greater; EE yields Less,
Greater, Equal; and the fallible variants return the same orderings as
values. -/
theorem c4_unbounded_by_kind :
    ∀ v : Int,
      Bb.fromBounds (.bounded v) .unbounded = .gt ∧
      Bb.fromBounds .unbounded (.bounded v) = .lt ∧
      Bb.fromBounds .unbounded .unbounded = .eq ∧
      Be.fromBounds (.bounded v) .unbounded = .lt ∧
      Be.fromBounds .unbounded (.bounded v) = .lt ∧
      Be.fromBounds .unbounded .unbounded = .lt ∧
      Eb.fromBounds (.bounded v) .unbounded = .gt ∧
      Eb.fromBounds .unbounded (.bounded v) = .gt ∧
      Eb.fromBounds .unbounded .unbounded = .gt ∧
      Ee.fromBounds (.bounded v) .unbounded = .lt ∧
      Ee.fromBounds .unbounded (.bounded v) = .gt ∧
      Ee.fromBounds .unbounded .unbounded = .eq ∧
      Bb.tryFromBounds (.bounded v) .unbounded = .ok .gt ∧
      Bb.tryFromBounds .unbounded (.bounded v) = .ok .lt ∧
      Bb.tryFromBounds .unbounded .unbounded = .ok .eq ∧
      Be.tryFromBounds (.bounded v) .unbounded = .ok .lt ∧
      Be.tryFromBounds .unbounded (.bounded v) = .ok .lt ∧
      Be.tryFromBounds .unbounded .unbounded = .ok .lt ∧
      Eb.tryFromBounds (.bounded v) .unbounded = .ok .gt ∧
      Eb.tryFromBounds .unbounded (.bounded v) = .ok .gt ∧
      Eb.tryFromBounds .unbounded .unbounded = .ok .gt ∧
      Ee.tryFromBounds (.bounded v) .unbounded = .ok .lt ∧
      Ee.tryFromBounds .unbounded (.bounded v) = .ok .gt ∧
      Ee.tryFromBounds .unbounded .unbounded = .ok .eq := by
  intro v
  repeat' constructor

/-- C5 counterexample: the range-based classifier does not return
EmptyInterval as a value on an empty discrete interval.  On 5..3
(start > end) the `assert!` in `AtomicRelations::from_ranges` fires (a
panic, not a returned error), and 3..3 (start = end) passes the
non-strict `assert!(sb <= se)` and is classified as Meets rather than
rejected (i8-style sentinels). -/
theorem c5_counterexample :
    AtomicRelations.fromRanges (-128) 127 (.range 5 3) (.range 0 10) =
      .panicked ∧
    Relation.fromRanges (-128) 127 (.range 3 3) (.range 3 6) =
      .ok .meets := by decide

/-- C5 amended: converting an Interval with start >= end into
NonEmpty<Interval> fails with the EmptyInterval error returned as a
value; the range-based classifier, by contrast, panics via its
assertion whenever a range with start > end is supplied in the s or the
t position (and does not reject start = end at all). -/
theorem c5_empty_interval_handling :
    (∀ a b : Int, b ≤ a →
      nonEmptyTryFrom a b = .error .emptyInterval) ∧
    (∀ minv maxv a b c d : Int, b < a →
      AtomicRelations.fromRanges minv maxv (.range a b) (.range c d) =
        .panicked) ∧
    (∀ minv maxv a b c d : Int, a ≤ b → d < c →
      AtomicRelations.fromRanges minv maxv (.range a b) (.range c d) =
        .panicked) := by
  refine ⟨?_, ?_, ?_⟩
  · intro a b hba
    rcases hcmp : cmpInt a b with _ | _ | _
    · exact absurd (cmpInt_eq_lt.mp hcmp) (by omega)
    · simp only [nonEmptyTryFrom, hcmp]
    · simp only [nonEmptyTryFrom, hcmp]
  · intro minv maxv a b c d hba
    simp only [AtomicRelations.fromRanges, Rng.startB, Rng.endB]
    have h1 : cmpBE minv maxv (some a) (some b) = .gt := cmpInt_eq_gt.mpr hba
    rw [h1, if_pos rfl]
  · intro minv maxv a b c d hab hdc
    simp only [AtomicRelations.fromRanges, Rng.startB, Rng.endB]
    have h1 : cmpBE minv maxv (some a) (some b) ≠ .gt := by
      show cmpInt a b ≠ .gt
      rw [Ne, cmpInt_eq_gt]; omega
    have h2 : cmpBE minv maxv (some c) (some d) = .gt := cmpInt_eq_gt.mpr hdc
    rw [if_neg h1, h2, if_pos rfl]

/-- Witness for the amended C5 at concrete inputs. -/
theorem c5_empty_interval_handling_witness :
    ((3 : Int) ≤ 3 ∧ nonEmptyTryFrom 3 3 = .error .emptyInterval) ∧
    ((3 : Int) < 5 ∧
      AtomicRelations.fromRanges (-128) 127 (.range 5 3) (.range 0 10) =
        .panicked) ∧
    ((0 : Int) ≤ 10 ∧ (4 : Int) < 7 ∧
      AtomicRelations.fromRanges (-128) 127 (.range 0 10) (.range 7 4) =
        .panicked) :=
  ⟨⟨by decide, c5_empty_interval_handling.1 3 3 (by decide)⟩,
   ⟨by decide, c5_empty_interval_handling.2.1 (-128) 127 5 3 0 10 (by decide)⟩,
   ⟨by decide, by decide,
    c5_empty_interval_handling.2.2 (-128) 127 0 10 7 4
      (by decide) (by decide)⟩⟩

/-- C6 counterexample: with i8-style sentinels, classifying the
continuous pair (..=4, 5..) returns Precedes, not Meets, and so does the
discrete pair (..4, 5..); this matches the crate's own tests, which
expect Meets only for (..5, 5..) and (..=5, 5..). -/
theorem c6_counterexample :
    Relation.fromRanges (-128) 127 (.toIncl 4) (.fromB 5) =
      .ok .precedes ∧
    Relation.fromRanges (-128) 127 (.to 4) (.fromB 5) =
      .ok .precedes ∧
    Relation.precedes ≠ Relation.meets := by decide

/-- C6 amended: classification of (..=4, 5..) under Continuous
(non-discrete) rules returns Precedes, and classification of the
analogous discrete pair (..4, 5..) under Discrete rules also returns
Precedes (for any sentinels accommodating the two bounded endpoints);
Meets instead requires the shared boundary value, as in (..5, 5..). -/
theorem c6_discreteness_scenarios (minv maxv : Int)
    (h4 : minv ≤ 4) (h5 : 5 ≤ maxv) :
    Relation.fromRanges minv maxv (.toIncl 4) (.fromB 5) =
      .ok .precedes ∧
    Relation.fromRanges minv maxv (.to 4) (.fromB 5) =
      .ok .precedes ∧
    Relation.fromRanges minv maxv (.toIncl 5) (.fromB 5) =
      .ok .meets ∧
    Relation.fromRanges minv maxv (.to 5) (.fromB 5) =
      .ok .meets := by
  have hs4 : cmpBE minv maxv none (some 4) ≠ .gt := by
    show cmpInt minv 4 ≠ .gt
    rw [Ne, cmpInt_eq_gt]; omega
  have hs5 : cmpBE minv maxv none (some 5) ≠ .gt := by
    show cmpInt minv 5 ≠ .gt
    rw [Ne, cmpInt_eq_gt]; omega
  have ht5 : cmpBE minv maxv (some 5) none ≠ .gt := by
    show cmpInt 5 maxv ≠ .gt
    rw [Ne, cmpInt_eq_gt]; omega
  have heb45 : cmpEB minv maxv (some 4) (some 5) = .lt := by
    show cmpInt 4 5 = .lt; decide
  have heb55 : cmpEB minv maxv (some 5) (some 5) = .eq := by
    show cmpInt 5 5 = .eq; decide
  have hbe5 : cmpBE minv maxv none none = .lt := rfl
  refine ⟨?_, ?_, ?_, ?_⟩ <;>
    · simp only [Relation.fromRanges, AtomicRelations.fromRanges,
        Rng.startB, Rng.endB]
      first
        | rw [if_neg hs4, if_neg ht5, heb45]
          exact congrArg PanicOr.ok (fromAtomics_precedes_of_eb_lt _ _ _)
        | rw [if_neg hs5, if_neg ht5, heb55, hbe5]
          exact congrArg PanicOr.ok (fromAtomics_meets_of_eb_eq _ _)

/-- Witness for the amended C6 at i8-style sentinels. -/
theorem c6_discreteness_scenarios_witness :
    (-128 : Int) ≤ 4 ∧ (5 : Int) ≤ 127 ∧
    (Relation.fromRanges (-128) 127 (.toIncl 4) (.fromB 5) =
        .ok .precedes ∧
      Relation.fromRanges (-128) 127 (.to 4) (.fromB 5) =
        .ok .precedes ∧
      Relation.fromRanges (-128) 127 (.toIncl 5) (.fromB 5) =
        .ok .meets ∧
      Relation.fromRanges (-128) 127 (.to 5) (.fromB 5) =
        .ok .meets) :=
  ⟨by decide, by decide,
   c6_discreteness_scenarios (-128) 127 (by decide) (by decide)⟩

/-- C7 counterexample: a continuous (closed, RangeInclusive) degenerate
point interval with start = end is rejected with EmptyInterval, both by
the interval validator and by the NonEmpty conversion, contradicting the
claim that it is accepted as non-empty. -/
theorem c7_counterexample :
    validateInterval (-128) 127 (.rangeIncl 3 3) = .error .emptyInterval ∧
    nonEmptyTryFrom 3 3 = .error .emptyInterval := ⟨rfl, rfl⟩

/-- C7 amended: the non-emptiness check is not discreteness-dependent:
the validator accepts a discrete range a..b and a continuous inclusive
range a..=b under exactly the same condition (start < end, with the
start below the upper sentinel and the end above the lower one) -- the
two checks are literally identical -- so a continuous degenerate point
interval with start = end is rejected with EmptyInterval. -/
theorem c7_emptiness_check (minv maxv a b : Int) :
    (validateInterval minv maxv (.range a b) = .ok () ↔
      a < b ∧ a < maxv ∧ minv < b) ∧
    (validateInterval minv maxv (.rangeIncl a b) =
      validateInterval minv maxv (.range a b)) ∧
    validateInterval minv maxv (.rangeIncl a a) =
      .error .emptyInterval := by
  refine ⟨?_, rfl, ?_⟩
  · simp only [validateInterval]
    split_ifs with hc <;> simp <;> omega
  · simp only [validateInterval]
    rw [if_pos (Or.inl le_rfl)]

/-- C8: the converse operation is an involution whose only fixed point
is Equals: applying it twice is the identity, and it fixes a relation
exactly when that relation is Equals. -/
theorem c8_converse_involution :
    ∀ r : Relation,
      r.asConverse.asConverse = r ∧ (r.asConverse = r ↔ r = .equals) := by
  decide

/-- C9: the total order on relations is exactly the fixed sequence
Precedes < Meets < Overlaps < IsFinishedBy < Contains < Starts < Equals
< IsStartedBy < IsContainedBy < Finishes < IsOverlappedBy < IsMetBy <
IsPrecededBy: one relation compares strictly below another precisely
when it appears strictly earlier in that sequence. -/
theorem c9_total_order :
    ∀ r1 r2 : Relation,
      Relation.cmp r1 r2 = .lt ↔
        specOrderList.indexOf r1 < specOrderList.indexOf r2 := by decide

/-- C10: the sentinel-materializing range classifier treats a range
bounded exactly at the type's minimum like the unbounded full range:
classifying (MIN.., ..) yields the atomic tuple (Equal, Less, Greater,
Equal), the same tuple hardcoded for (.., ..), and that tuple classifies
as Equals. -/
theorem c10_min_sentinel_equals (minv maxv : Int) (h : minv < maxv) :
    arFromRangeFromFull minv maxv minv = some ⟨.eq, .lt, .gt, .eq⟩ ∧
    arFromFullFull = some ⟨.eq, .lt, .gt, .eq⟩ ∧
    Relation.fromAtomics ⟨.eq, .lt, .gt, .eq⟩ = .equals := by
  refine ⟨?_, rfl, by decide⟩
  unfold arFromRangeFromFull
  rw [cmpInt_self minv, cmpInt_eq_lt.mpr h, cmpInt_eq_gt.mpr h,
    cmpInt_self maxv]

/-- Witness for C10 at i8-style sentinels. -/
theorem c10_min_sentinel_equals_witness :
    (-128 : Int) < 127 ∧
    (arFromRangeFromFull (-128) 127 (-128) = some ⟨.eq, .lt, .gt, .eq⟩ ∧
      arFromFullFull = some ⟨.eq, .lt, .gt, .eq⟩ ∧
      Relation.fromAtomics ⟨.eq, .lt, .gt, .eq⟩ = .equals) :=
  ⟨by decide, c10_min_sentinel_equals (-128) 127 (by decide)⟩

end Allen
